import Mathlib

/-!
Verification of the segment-and-render pipeline in `src/index.js` of the
Youtube-Faceless repository.

The development shallowly embeds the script's pure algorithmic core
(text tokenization, `splitTextIntoSegments`, `sanitizeTitle`, the
admission policy of `processPost`, the chunk rebalancing logic of
`splitVideo`, and the ffmpeg job built by `createVideo`) as executable
Lean functions, and models the effectful per-post pipeline
(`processPost` / its segment loop) as a deterministic state machine over
an explicit artifact store, a title cache, and an environment recording
the outcomes of the external collaborators (OpenAI, PlayHT, puppeteer,
ffmpeg, YouTube).  Every definition follows the JavaScript source
line by line; comments cite the corresponding lines.
-/

/-! ## JavaScript-style whitespace tokenization

`splitTextIntoSegments` (src/index.js:528) and the word-count check at
src/index.js:587 use `text.split(/\s+/)`.  JavaScript `String.split`
with the regex `/\s+/` splits at maximal whitespace runs; a run at the
very start (or an empty input) contributes a leading empty token and a
run at the very end a trailing empty token. -/

/-- The characters matched by the JavaScript regex class `\s`
(the ones that can occur in practice: space, tab, LF, CR, VT, FF). -/
def isWsChar (c : Char) : Bool :=
  c == ' ' || c == '\t' || c == '\n' || c == '\r' ||
    c == Char.ofNat 11 || c == Char.ofNat 12

/-- Worker for `split(/\s+/)`: `inWs` records whether we are inside a
whitespace run (whose first character already emitted the pending
token), `acc` is the current token accumulated in reverse. -/
def goSplit (inWs : Bool) : List Char → List Char → List (List Char)
  | [], acc => [acc.reverse]
  | c :: cs, acc =>
    if isWsChar c then
      if inWs then goSplit true cs acc
      else acc.reverse :: goSplit true cs []
    else goSplit false cs (c :: acc)

/-- JavaScript `str.split(/\s+/)` on a character list. -/
def jsSplitWsL (cs : List Char) : List (List Char) :=
  goSplit false cs []

/-- The whitespace-separated tokens of a string, exactly as
`text.split(/\s+/)` produces them (src/index.js:528, 587). -/
def wordTokens (s : String) : List (List Char) :=
  jsSplitWsL s.data

/-- `text.split(/\s+/).length`, the script's notion of the word count of
a text (src/index.js:587). -/
def wordCount (s : String) : Nat :=
  (wordTokens s).length

/-- JavaScript `Array.prototype.join(" ")` on a list of tokens
(character lists): interleave a single space. -/
def joinTok : List (List Char) → List Char
  | [] => []
  | [t] => t
  | t :: ts => t ++ ' ' :: joinTok ts

/-- JavaScript `Array.prototype.join(" ")` on a list of strings. -/
def joinSp : List String → String
  | [] => ""
  | [s] => s
  | s :: ss => s ++ " " ++ joinSp ss

/-! ## The text segmenter (src/index.js:527-551) -/

/-- The test `/[.!?]$/.test(word)` (src/index.js:536): the word's last
character is terminal punctuation.  (An empty token has no last
character, and the regex does not match.) -/
def endsWithPunct (t : List Char) : Bool :=
  match t.getLast? with
  | some c => c == '.' || c == '!' || c == '?'
  | none => false

/-- One iteration of the `words.forEach` loop (src/index.js:532-541):
push the word onto `currentSegment`; if the buffer has reached
`minWords` and the word ends a sentence, emit the buffer as a segment
and start a fresh one.  State is `(segments, currentSegment)`, each
segment kept as its token list. -/
def segStep (minWords : Nat) (st : List (List (List Char)) × List (List Char))
    (w : List Char) : List (List (List Char)) × List (List Char) :=
  let cur := st.2 ++ [w]
  if minWords ≤ cur.length ∧ endsWithPunct w then (st.1 ++ [cur], [])
  else (st.1, cur)

/-- The full `forEach` pass over the token list. -/
def segFold (minWords : Nat) (toks : List (List Char)) :
    List (List (List Char)) × List (List Char) :=
  toks.foldl (segStep minWords) ([], [])

/-- `segments[segments.length - 1] += " " + currentSegment.join(" ")`
(src/index.js:545): append the remainder's tokens onto the last emitted
segment.  (At token level, appending the joined remainder with a space
separator is exactly list concatenation of the token lists.) -/
def mergeIntoLast : List (List (List Char)) → List (List Char) →
    List (List (List Char))
  | [], rest => [rest]
  | [s], rest => [s ++ rest]
  | s :: ss, rest => s :: mergeIntoLast ss rest

/-- The epilogue after the loop (src/index.js:543-549): a nonempty
remaining buffer is pushed as a final segment, unless at least one
segment exists and the remainder is shorter than `minWords`, in which
case it is merged into the last emitted segment. -/
def segFinish (minWords : Nat)
    (st : List (List (List Char)) × List (List Char)) :
    List (List (List Char)) :=
  if st.2 = [] then st.1
  else if st.1 ≠ [] ∧ st.2.length < minWords then mergeIntoLast st.1 st.2
  else st.1 ++ [st.2]

/-- `splitTextIntoSegments` at token level: the segments' token lists. -/
def segmentTokens (toks : List (List Char)) (minWords : Nat) :
    List (List (List Char)) :=
  segFinish minWords (segFold minWords toks)

/-- `splitTextIntoSegments(text, minWords)` (src/index.js:527-551).
The JavaScript code stores each emitted segment as the string
`currentSegment.join(" ")` and the merge step appends
`" " + currentSegment.join(" ")`; joining each token-level segment at
the end is the same operation (see `mergeStepAsStrings` below). -/
def splitTextIntoSegments (text : String) (minWords : Nat := 75) :
    List String :=
  (segmentTokens (wordTokens text) minWords).map fun t => String.mk (joinTok t)

/-! Quick concrete checks of the segmenter against the spec's examples
are stated as theorems near the claims below. -/

/-! ## Title sanitization (src/index.js:34-39)

`title.replace(/[^a-z0-9]/gi, "_").replace(/_+/g, "_").toLowerCase()
      .replace(/^_+|_+$/g, "")` -/

/-- `.replace(/_+/g, "_")`: collapse each run of underscores to one. -/
def collapseUnderscores : List Char → List Char
  | [] => []
  | [c] => [c]
  | a :: b :: rest =>
    if a == '_' && b == '_' then collapseUnderscores (b :: rest)
    else a :: collapseUnderscores (b :: rest)

/-- `sanitizeTitle` (src/index.js:34-39). -/
def sanitizeTitle (title : String) : String :=
  let s1 := title.data.map fun c => if c.isAlphanum then c else '_'
  let s2 := collapseUnderscores s1
  let s3 := s2.map Char.toLower
  let s4 := ((s3.dropWhile fun c => c == '_').reverse.dropWhile
      fun c => c == '_').reverse
  String.mk s4

/-! ## Admission helpers (src/index.js:566-579) -/

/-- `needle` occurs at the start of `hay`. -/
def leadsWith : List Char → List Char → Bool
  | [], _ => true
  | _ :: _, [] => false
  | a :: as, b :: bs => a == b && leadsWith as bs

/-- `hay.includes(needle)` on character lists. -/
def containsSeq (needle : List Char) : List Char → Bool
  | [] => needle.isEmpty
  | c :: t => leadsWith needle (c :: t) || containsSeq needle t

/-- `s.toLowerCase().includes("update")` (src/index.js:567-568). -/
def containsUpdate (s : String) : Bool :=
  containsSeq "update".data (s.data.map Char.toLower)

/-- JavaScript `str.split(" ")`: split at every single space character,
so runs of spaces produce empty pieces (src/index.js:574 counts the
pieces of `postContent.split(" ")`). -/
def splitOnSpaceL : List Char → List (List Char)
  | [] => [[]]
  | c :: cs =>
    if c == ' ' then [] :: splitOnSpaceL cs
    else
      match splitOnSpaceL cs with
      | t :: ts => (c :: t) :: ts
      | [] => [[c]]

/-- `postContent.split(" ").length` (src/index.js:574). -/
def bodyWordCount (content : String) : Nat :=
  (splitOnSpaceL content.data).length

/-! ## The splitter/rebalancer tail-merge logic (src/index.js:388-446)

`splitVideo` cuts the input into `segment_%d.mp4` chunks of at most
`segmentDuration` (default 60) seconds, then — only when more than one
chunk was produced — probes the duration of the last chunk
(`lastDuration` starts at `0` and a probe error is caught and logged,
leaving it `0`, src/index.js:405-413) and, if `lastDuration < 30`,
concatenates the last chunk onto the penultimate one and pops it.
We model the post-cut logic as a function on the list of chunk
durations; `probeOk` tells whether the ffprobe of the last chunk
succeeded. -/

/-- Default `segmentDuration` of `splitVideo` (src/index.js:369). -/
def segmentDurationDefault : ℚ := 60

/-- Concatenate the final chunk onto the penultimate one and drop it
(src/index.js:418-437); chunks keep their chronological order. -/
def mergeLastTwo : List ℚ → List ℚ
  | [] => []
  | [a] => [a]
  | [a, b] => [a + b]
  | a :: rest => a :: mergeLastTwo rest

/-- The tail-rebalancing step of `splitVideo` (src/index.js:402-445) on
the chunk durations.  When the probe of the last chunk fails the error
is swallowed and `lastDuration` keeps its initial value `0`. -/
def rebalanceChunks (durs : List ℚ) (probeOk : Bool) : List ℚ :=
  if 1 < durs.length then
    let lastActual := (durs.getLast?).getD 0
    let lastDuration := if probeOk then lastActual else 0
    if lastDuration < 30 then mergeLastTwo durs else durs
  else durs

/-! ## The compositor (src/index.js:295-367)

`createVideo` probes the narration audio's duration and builds one
ffmpeg invocation.  We record the invocation's parameters as a
structure, and give the encoder contract its standard duration
semantics: the container lasts as long as the longest mapped stream,
clipped by the `-t` output option.  The mapped streams are the filtered
background video (input seeked 5 s in, src/index.js:303,308) and the
narration audio (`-map 2:a`, mapped whole). -/

structure FfmpegJob where
  bgSeekSeconds : ℚ
  outWidth : Int
  outHeight : Int
  captionWidth : Int
  captionOpacity : ℚ
  trimSeconds : ℚ
  videoCodec : String
  pixelFormat : String
  audioCodec : String
deriving DecidableEq

/-- The ffmpeg job built by `createVideo` for a narration audio whose
probed duration is `audioDuration` (src/index.js:305-356): seek the
background 5 s (`-ss 00:00:05`), scale to height 1920 and center-crop
to 1080x1920, scale the caption to width 900, overlay it at 90%
opacity, and trim the output with `-t audioDuration`. -/
def createVideoJob (audioDuration : ℚ) : FfmpegJob :=
  { bgSeekSeconds := 5
    outWidth := 1080
    outHeight := 1920
    captionWidth := 900
    captionOpacity := 9 / 10
    trimSeconds := audioDuration
    videoCodec := "libx264"
    pixelFormat := "yuv420p"
    audioCodec := "aac" }

/-- Encoder contract for the job: the output container's duration is
the duration of the longest mapped stream — the seeked background video
(`max (backgroundDuration - seek) 0`) or the narration audio — clipped
by the `-t` output option. -/
def jobOutputDuration (job : FfmpegJob)
    (backgroundDuration narrationDuration : ℚ) : ℚ :=
  min job.trimSeconds
    (max (max (backgroundDuration - job.bgSeekSeconds) 0) narrationDuration)

/-! ## The per-post pipeline (src/index.js:561-681)

We model the effectful pipeline as a deterministic function of
  * a `Post` (the fields of the fetched Reddit post that the pipeline
    reads; `post.selftext || ""` is modelled by making `selftext` a
    plain string),
  * an `Env` fixing the outcomes of every external collaborator,
  * a `Store` of artifact paths already present on disk
    (`fs.existsSync`), and
  * the `shortTitleCache` contents (an association list, newest first).
The function returns the ordered list of external calls attempted, the
successfully uploaded ("published") clips with their durations, the
updated store and cache, and whether the `processPost` promise rejected
(an uncaught exception, which `processSubreddits` does not handle
either, so it terminates the whole run: src/index.js:671-679 has no
try/catch around `await processPost`). -/

structure Post where
  title : String
  selftext : String
  author : String
  subredditNamePrefixed : String
  ups : Int
  numComments : Int

/-- Outcome of `PlayHT.stream` for one segment (src/index.js:140-163):
`ok` — the stream completes and the audio file is written;
`callError` — the `PlayHT.stream` call itself rejects, the `catch`
at line 159 returns `null`;
`streamError` — the byte stream emits an `error` event, the promise
returned at line 146 rejects (src/index.js:154-157), and since
`generateSegmentSpeech` has already returned that promise the outer
`catch` cannot intercept the rejection. -/
inductive TtsOutcome
  | ok
  | callError
  | streamError
deriving DecidableEq

/-- One attempted external call, in the order the script awaits them. -/
inductive ExtCall
  | correctTextCall (input : String)
  | shortenTitleCall (title : String)
  | descriptionCall (title postText : String)
  | ttsCall (segmentIndex : Nat) (text : String)
  | renderCall (segmentIndex : Nat)
  | probeAudioCall (path : String)
  | encodeCall (segmentIndex : Nat)
  | uploadCall (path title : String)
deriving DecidableEq

/-- The artifact store: the set of paths `fs.existsSync` reports, plus
the durations of the video files on it. -/
structure Store where
  files : List String
  videoDurations : List (String × ℚ)
deriving DecidableEq

def Store.hasFile (st : Store) (p : String) : Bool := st.files.contains p

def Store.addFile (st : Store) (p : String) : Store :=
  { st with files := p :: st.files }

def Store.addVideo (st : Store) (p : String) (d : ℚ) : Store :=
  { files := p :: st.files, videoDurations := (p, d) :: st.videoDurations }

def Store.durationOf (st : Store) (p : String) : ℚ :=
  (st.videoDurations.lookup p).getD 0

def emptyStore : Store := { files := [], videoDurations := [] }

/-- Fixed outcomes of the external collaborators for one run.
Per-segment outcomes are indexed by the 1-based segment index. -/
structure Env where
  correctOk : Bool
  correctedOf : String → String
  shortenOk : Bool
  shortTitleOf : String → String
  describeOk : Bool
  tts : Nat → TtsOutcome
  narrationDuration : Nat → ℚ
  encodeOk : Nat → Bool
  uploadOk : Nat → Bool

/-- Audio artifact path (src/index.js:127-129). -/
def audioFilePath (subredditFolder shortTitle : String)
    (segmentIndex : Nat) : String :=
  "./" ++ subredditFolder ++ "/" ++ sanitizeTitle shortTitle ++
    "/audio/audio_" ++ sanitizeTitle shortTitle ++ "_part" ++
    toString segmentIndex ++ ".mp3"

/-- Screenshot artifact path for a segment (src/index.js:224-231;
`processPost` always passes a segment index). -/
def screenshotFilePath (subredditFolder shortTitle : String)
    (segmentIndex : Nat) : String :=
  "./" ++ subredditFolder ++ "/" ++ sanitizeTitle shortTitle ++
    "/screenshot/screenshot_" ++ sanitizeTitle shortTitle ++ "_part" ++
    toString segmentIndex ++ ".png"

/-- Rendered video path for a segment (src/index.js:632-634). -/
def videoFilePath (subredditFolder shortTitle : String)
    (segmentIndex : Nat) : String :=
  "./" ++ subredditFolder ++ "/" ++ sanitizeTitle shortTitle ++
    "/ogVid/video_" ++ sanitizeTitle shortTitle ++ "_part" ++
    toString segmentIndex ++ ".mp4"

/-- Description file path (src/index.js:274-276). -/
def descriptionFilePath (subredditFolder shortTitle : String) : String :=
  "./" ++ subredditFolder ++ "/" ++ sanitizeTitle shortTitle ++
    "/description/description.txt"

/-- Result of `generateSegmentSpeech` as observed by `processPost`. -/
inductive SpeechResult
  | audioAt (path : String)
  | nullResult
  | thrown
deriving DecidableEq

/-- `generateSegmentSpeech` (src/index.js:121-163): skip the PlayHT
call when the audio file already exists; otherwise stream, returning
the path on success, `null` when the call itself errors, and a rejected
promise when the byte stream errors.  (On a stream error a partial file
may remain; the store is left unchanged here, which no claim relies
on.) -/
def generateSegmentSpeech (env : Env) (st : Store)
    (segmentText shortTitle subredditFolder : String)
    (segmentIndex : Nat) : SpeechResult × Store × List ExtCall :=
  let p := audioFilePath subredditFolder shortTitle segmentIndex
  if st.hasFile p then (.audioAt p, st, [])
  else
    match env.tts segmentIndex with
    | .ok => (.audioAt p, st.addFile p, [.ttsCall segmentIndex segmentText])
    | .callError => (.nullResult, st, [.ttsCall segmentIndex segmentText])
    | .streamError => (.thrown, st, [.ttsCall segmentIndex segmentText])

/-- `generateScreenshot` (src/index.js:171-251) as called from the
segment loop (`customContent = segmentText`, `segmentIndex` set).  The
content fallback `customContent || (await correctText(post.selftext))`
runs *before* the existence check, so an empty segment text triggers a
text-correction call even when the screenshot is cached.  The headless
render itself is modelled as always succeeding. -/
def generateScreenshot (st : Store) (post : Post)
    (shortTitle subredditFolder : String) (customContent : String)
    (segmentIndex : Nat) : String × Store × List ExtCall :=
  let contentCalls : List ExtCall :=
    if customContent = "" then [.correctTextCall post.selftext] else []
  let p := screenshotFilePath subredditFolder shortTitle segmentIndex
  if st.hasFile p then (p, st, contentCalls)
  else (p, st.addFile p, contentCalls ++ [.renderCall segmentIndex])

/-- The YouTube title for segment `segmentIndex` of `segmentsCount`
(src/index.js:656-660). -/
def segmentUploadTitle (shortTitle : String)
    (segmentsCount segmentIndex : Nat) : String :=
  shortTitle ++ " " ++
    (if 1 < segmentsCount then "- Part " ++ toString segmentIndex else "") ++
    " #relationshipadvice #shorts #trending #viral"

/-- One iteration of the segment loop (src/index.js:607-668):
generate narration (skip segment on `null`, crash on a rejected
stream), generate the screenshot, create the video unless it exists
(probe + encode; an error skips the upload via `continue`), then always
attempt the upload (its own try/catch logs failures and moves on).
Returns `(calls, published, store, crashed)`. -/
def processSegment (env : Env) (post : Post)
    (shortTitle subredditFolder : String) (segmentsCount : Nat)
    (st : Store) (segmentIndex : Nat) (segmentText : String) :
    List ExtCall × List (String × ℚ) × Store × Bool :=
  let (speech, st1, tr1) :=
    generateSegmentSpeech env st segmentText shortTitle subredditFolder
      segmentIndex
  match speech with
  | .thrown => (tr1, [], st1, true)
  | .nullResult => (tr1, [], st1, false)
  | .audioAt audioPath =>
    let (_, st2, tr2) :=
      generateScreenshot st1 post shortTitle subredditFolder
        segmentText segmentIndex
    let vp := videoFilePath subredditFolder shortTitle segmentIndex
    let (created, st3, tr3) :=
      if st2.hasFile vp then (true, st2, ([] : List ExtCall))
      else if env.encodeOk segmentIndex then
        (true, st2.addVideo vp (env.narrationDuration segmentIndex),
          [ExtCall.probeAudioCall audioPath, ExtCall.encodeCall segmentIndex])
      else
        (false, st2,
          [ExtCall.probeAudioCall audioPath, ExtCall.encodeCall segmentIndex])
    if created then
      let ttl := segmentUploadTitle shortTitle segmentsCount segmentIndex
      let pub := if env.uploadOk segmentIndex then [(vp, st3.durationOf vp)]
        else []
      (tr1 ++ tr2 ++ tr3 ++ [ExtCall.uploadCall vp ttl], pub, st3, false)
    else (tr1 ++ tr2 ++ tr3, [], st3, false)

/-- The `for (let i = 0; ...)` loop over the segments
(src/index.js:607-668).  A crashed segment (rejected promise) aborts
the loop; later segments are not reached. -/
def runSegments (env : Env) (post : Post)
    (shortTitle subredditFolder : String) (segmentsCount : Nat) :
    Store → Nat → List String → List ExtCall × List (String × ℚ) × Store × Bool
  | st, _, [] => ([], [], st, false)
  | st, i, s :: rest =>
    let (tr, pub, st1, crashed) :=
      processSegment env post shortTitle subredditFolder segmentsCount st i s
    if crashed then (tr, pub, st1, true)
    else
      let (tr2, pub2, st2, c2) :=
        runSegments env post shortTitle subredditFolder segmentsCount st1
          (i + 1) rest
      (tr ++ tr2, pub ++ pub2, st2, c2)

structure RunResult where
  calls : List ExtCall
  published : List (String × ℚ)
  store : Store
  cache : List (String × String)
  crashed : Bool
deriving DecidableEq

/-- `processPost` (src/index.js:561-669).  In source order: the two
admission checks (before any external call), `correctText` on
`title\n\ncontent` (one API call; an API error falls back to the
input), `getShortTitle` (cache lookup — a cached empty string is falsy
and misses — else one API call with fallback to the raw title, then a
cache insert), the 400-word segmentation decision, an unconditional
`generateDescription` API call (writing the description file only on
success), then the segment loop. -/
def processPost (env : Env) (cache : List (String × String)) (st : Store)
    (post : Post) (subredditFolder : String) : RunResult :=
  let postTitle := post.title
  let postContent := post.selftext
  if containsUpdate postTitle || containsUpdate postContent then
    ⟨[], [], st, cache, false⟩
  else if 600 < bodyWordCount postContent then
    ⟨[], [], st, cache, false⟩
  else
    let combinedText := postTitle ++ "\n\n" ++ postContent
    let corrected :=
      if env.correctOk then env.correctedOf combinedText else combinedText
    let hit :=
      match cache.lookup postTitle with
      | some s => if s = "" then none else some s
      | none => none
    let (shortTitle, cache1, trShort) :=
      match hit with
      | some s => (s, cache, ([] : List ExtCall))
      | none =>
        let s := if env.shortenOk then env.shortTitleOf postTitle else postTitle
        (s, (postTitle, s) :: cache, [ExtCall.shortenTitleCall postTitle])
    let totalWords := wordCount corrected
    let segments :=
      if 400 < totalWords then splitTextIntoSegments corrected 150
      else [corrected]
    let st1 :=
      if env.describeOk then
        st.addFile (descriptionFilePath subredditFolder shortTitle)
      else st
    let (trSegs, pub, st2, crashed) :=
      runSegments env post shortTitle subredditFolder segments.length st1 1
        segments
    ⟨ExtCall.correctTextCall combinedText :: trShort ++
        ExtCall.descriptionCall postTitle postContent :: trSegs,
      pub, st2, cache1, crashed⟩

/-- The post loop of `processSubreddits` (src/index.js:675-677): each
`processPost` is awaited with no try/catch, so a rejected promise ends
the run — later posts are never processed. -/
def processPosts (env : Env) (subredditFolder : String) :
    List (String × String) → Store → List Post →
    List ExtCall × List (String × ℚ) × Store × Bool
  | _, st, [] => ([], [], st, false)
  | cache, st, p :: ps =>
    let r := processPost env cache st p subredditFolder
    if r.crashed then (r.calls, r.published, r.store, true)
    else
      let (tr2, pub2, st2, c2) :=
        processPosts env subredditFolder r.cache r.store ps
      (r.calls ++ tr2, r.published ++ pub2, st2, c2)

/-! ## Shared concrete fixtures for witnesses and counterexamples -/

/-- A minimal admissible post: no "update", one-word body. -/
def postA : Post := ⟨"a", "b", "u1", "r/x", 1, 2⟩

/-- A second admissible post, used to observe run aborts. -/
def postB : Post := ⟨"c", "d", "u2", "r/x", 3, 4⟩

/-- An environment where every collaborator succeeds; the corrected
text is the one-word "ok", so the post stays a single segment. -/
def envA : Env :=
  { correctOk := true
    correctedOf := fun _ => "ok"
    shortenOk := true
    shortTitleOf := fun _ => "t"
    describeOk := true
    tts := fun _ => .ok
    narrationDuration := fun _ => 7
    encodeOk := fun _ => true
    uploadOk := fun _ => true }

/-- Like `envA` but every PlayHT byte stream errors after the call
succeeds (the `error` event of src/index.js:154). -/
def envStream : Env := { envA with tts := fun _ => .streamError }

/-- Like `envA` but every `PlayHT.stream` call itself rejects, so
`generateSegmentSpeech` returns `null` (src/index.js:159-162). -/
def envCallErr : Env := { envA with tts := fun _ => .callError }

/-- Like `envA` with the narration duration left as a parameter. -/
def envNarr (d : ℚ) : Env := { envA with narrationDuration := fun _ => d }

/-- A store holding every artifact of `postA`'s single segment under
short title "t" in folder "r", as a completed first run leaves them. -/
def storeFullA : Store :=
  { files := [audioFilePath "r" "t" 1, screenshotFilePath "r" "t" 1,
      videoFilePath "r" "t" 1, descriptionFilePath "r" "t"]
    videoDurations := [(videoFilePath "r" "t" 1, 7)] }

/-! ## C8 and C10: the splitter's tail-merge -/

/-- C8.  For every cut producing more than one chunk, a final chunk
shorter than 30 s is concatenated onto the penultimate chunk and
dropped, decrementing the chunk count; a final chunk of 30 s or more
leaves the list unchanged; a single chunk is never merged; and the
spec's three concrete examples: [60,60,60,25] becomes [60,60,85],
[60,60,60,45] is unchanged, [10] is returned unmodified. -/
theorem c8_rebalancer :
    (∀ durs : List ℚ, 1 < durs.length → (durs.getLast?).getD 0 < 30 →
      rebalanceChunks durs true = mergeLastTwo durs ∧
        (rebalanceChunks durs true).length + 1 = durs.length) ∧
    (∀ durs : List ℚ, 1 < durs.length → 30 ≤ (durs.getLast?).getD 0 →
      rebalanceChunks durs true = durs) ∧
    (∀ durs : List ℚ, durs.length ≤ 1 → rebalanceChunks durs true = durs) ∧
    rebalanceChunks [60, 60, 60, 25] true = [60, 60, 85] ∧
    rebalanceChunks [60, 60, 60, 45] true = [60, 60, 60, 45] ∧
    rebalanceChunks [10] true = [10] := by
  have hlen : ∀ durs : List ℚ, 1 < durs.length →
      (mergeLastTwo durs).length + 1 = durs.length := by
    intro durs h
    induction durs with
    | nil => simp at h
    | cons a rest ih =>
      match rest with
      | [] => simp at h
      | [b] => simp [mergeLastTwo]
      | b :: c :: rest' =>
        have := ih (by simp)
        simp [mergeLastTwo] at this ⊢
        omega
  refine ⟨?_, ?_, ?_,
    by norm_num [rebalanceChunks, mergeLastTwo, List.getLast?],
    by norm_num [rebalanceChunks, List.getLast?],
    by norm_num [rebalanceChunks]⟩
  · intro durs h1 h2
    constructor
    · simp [rebalanceChunks, h1, h2]
    · rw [show rebalanceChunks durs true = mergeLastTwo durs by
        simp [rebalanceChunks, h1, h2]]
      exact hlen durs h1
  · intro durs h1 h2
    simp [rebalanceChunks, h1, not_lt.mpr h2]
  · intro durs h1
    have : ¬ 1 < durs.length := by omega
    simp [rebalanceChunks, this]

/-- Witness for C8 at the spec's first example. -/
theorem c8_rebalancer_witness :
    rebalanceChunks [60, 60, 60, 25] true = mergeLastTwo [60, 60, 60, 25] ∧
      (rebalanceChunks [60, 60, 60, 25] true).length + 1 =
        ([60, 60, 60, 25] : List ℚ).length :=
  c8_rebalancer.1 [60, 60, 60, 25] (by decide) (by norm_num [List.getLast?])

/-- C10.  When more than one chunk was cut and the ffprobe of the final
chunk fails, the error is swallowed, `lastDuration` stays 0 (< 30), and
the merge runs regardless of the chunk's actual duration; concretely,
durations [60,60,60,45] with a failed probe become [60,60,105]. -/
theorem c10_probe_failure :
    (∀ durs : List ℚ, 1 < durs.length →
      rebalanceChunks durs false = mergeLastTwo durs) ∧
    rebalanceChunks [60, 60, 60, 45] false = [60, 60, 105] := by
  refine ⟨?_, by norm_num [rebalanceChunks, mergeLastTwo, List.getLast?]⟩
  intro durs h1
  simp [rebalanceChunks, h1]

/-- Witness for C10: the merge fires even though the final chunk
actually lasts 45 s ≥ 30 s. -/
theorem c10_probe_failure_witness :
    rebalanceChunks [60, 60, 60, 45] false = mergeLastTwo [60, 60, 60, 45] :=
  c10_probe_failure.1 [60, 60, 60, 45] (by decide)

/-! ## C9: compositor output duration -/

/-- C9.  `createVideo` passes `-t audioDuration` built from the probed
narration duration, and under the encoder contract the output lasts
exactly the narration's duration, whether the narration is shorter or
longer than the (seeked) background; concrete instances with a 300 s
background: narration 10 s and narration 500 s. -/
theorem c9_output_duration :
    (∀ backgroundDuration narrationDuration : ℚ,
      (createVideoJob narrationDuration).trimSeconds = narrationDuration ∧
      jobOutputDuration (createVideoJob narrationDuration)
        backgroundDuration narrationDuration = narrationDuration) ∧
    jobOutputDuration (createVideoJob 10) 300 10 = 10 ∧
    jobOutputDuration (createVideoJob 500) 300 500 = 500 := by
  refine ⟨?_, by norm_num [jobOutputDuration, createVideoJob],
    by norm_num [jobOutputDuration, createVideoJob]⟩
  intro b n
  refine ⟨rfl, ?_⟩
  simp only [jobOutputDuration, createVideoJob]
  exact min_eq_left (le_max_right _ _)

/-! ## C7: the admission policy -/

/-- The character list of "a a a ... a" with `n` words. -/
def aWords : Nat → List Char
  | 0 => []
  | 1 => ['a']
  | n + 2 => 'a' :: ' ' :: aWords (n + 1)

/-- A post with an admissible title and a body of exactly 600 words. -/
def postW600 : Post := ⟨"t", String.mk (aWords 600), "u", "r/x", 0, 0⟩

/-- A post with an admissible title and a body of exactly 601 words. -/
def postW601 : Post := ⟨"t", String.mk (aWords 601), "u", "r/x", 0, 0⟩

set_option maxRecDepth 4000 in
/-- C7.  Admission is decided before any asset generation: a post whose
title or body contains the case-insensitive substring "update", or
whose body splits into more than 600 space-separated words, is rejected
with no external call, no publication and no state change; an admitted
post's very first external call is the text correction.  Concretely, a
600-word body is accepted (processing happens) and a 601-word body is
rejected. -/
theorem c7_admission :
    (∀ (env : Env) (cache : List (String × String)) (st : Store)
        (post : Post) (sub : String),
      (containsUpdate post.title || containsUpdate post.selftext) = true ∨
          600 < bodyWordCount post.selftext →
        processPost env cache st post sub = ⟨[], [], st, cache, false⟩) ∧
    (∀ (env : Env) (cache : List (String × String)) (st : Store)
        (post : Post) (sub : String),
      (containsUpdate post.title || containsUpdate post.selftext) = false →
      bodyWordCount post.selftext ≤ 600 →
        (processPost env cache st post sub).calls.head? =
          some (ExtCall.correctTextCall
            (post.title ++ "\n\n" ++ post.selftext))) ∧
    (processPost envA [("t", "s")] emptyStore postW600 "r").calls ≠ [] ∧
    processPost envA [("t", "s")] emptyStore postW601 "r" =
      ⟨[], [], emptyStore, [("t", "s")], false⟩ := by
  refine ⟨?_, ?_, by decide, by decide⟩
  · intro env cache st post sub h
    rcases h with h | h
    · simp [processPost, h]
    · cases hb : (containsUpdate post.title || containsUpdate post.selftext)
      · simp [processPost, hb, h]
      · simp [processPost, hb]
  · intro env cache st post sub hb hc
    have hc' : ¬ 600 < bodyWordCount post.selftext := not_lt.mpr hc
    cases hl : cache.lookup post.title with
    | none => simp [processPost, hb, hc', hl]
    | some s =>
      by_cases hs : s = "" <;> simp [processPost, hb, hc', hl, hs]

/-- Witness for C7: a post whose title contains "Update" is dismissed
untouched. -/
theorem c7_admission_witness :
    processPost envA [] emptyStore ⟨"An Update!", "x", "u", "r/x", 0, 0⟩ "r" =
      ⟨[], [], emptyStore, [], false⟩ :=
  c7_admission.1 envA [] emptyStore ⟨"An Update!", "x", "u", "r/x", 0, 0⟩ "r"
    (Or.inl (by decide))

/-! ## C1: narration-synthesis failure handling -/

/-- Counterexample to C1.  A run over two admissible posts in which the
first post's only segment suffers a TTS byte-stream error: the
`processPost` promise rejects (`crashed = true`) and the run stops —
the trace contains no call at all for the second post (`postB`'s text
correction never happens), contradicting "the failure never aborts the
rest of the run". -/
theorem c1_counterexample :
    (processPosts envStream "r" [("a", "t")] emptyStore [postA, postB]).1 =
        [ExtCall.correctTextCall "a\n\nb", ExtCall.descriptionCall "a" "b",
          ExtCall.ttsCall 1 "ok"] ∧
      (processPosts envStream "r" [("a", "t")] emptyStore
          [postA, postB]).2.2.2 = true := by
  decide

/-- C1, amended.  Only a failure of the `PlayHT.stream` *call* itself
is segment-local: `generateSegmentSpeech` catches it, returns `null`,
and the loop `continue`s with the next segment.  A byte-stream `error`
event instead rejects the promise `generateSegmentSpeech` already
returned; nothing in `processPost` or `processSubreddits` catches it,
so the remaining segments (and posts) are abandoned. -/
theorem c1_narration_failure :
    (∀ (env : Env) (post : Post) (shortTitle sub : String) (n : Nat)
        (st : Store) (i : Nat) (s : String) (rest : List String),
      st.hasFile (audioFilePath sub shortTitle i) = false →
      env.tts i = .callError →
        runSegments env post shortTitle sub n st i (s :: rest) =
          (ExtCall.ttsCall i s ::
              (runSegments env post shortTitle sub n st (i + 1) rest).1,
            (runSegments env post shortTitle sub n st (i + 1) rest).2)) ∧
    (∀ (env : Env) (post : Post) (shortTitle sub : String) (n : Nat)
        (st : Store) (i : Nat) (s : String) (rest : List String),
      st.hasFile (audioFilePath sub shortTitle i) = false →
      env.tts i = .streamError →
        runSegments env post shortTitle sub n st i (s :: rest) =
          ([ExtCall.ttsCall i s], [], st, true)) := by
  constructor
  · intro env post shortTitle sub n st i s rest h1 h2
    simp [runSegments, processSegment, generateSegmentSpeech, h1, h2]
  · intro env post shortTitle sub n st i s rest h1 h2
    simp [runSegments, processSegment, generateSegmentSpeech, h1, h2]

/-- Witness for C1 (amended): with a two-segment list, a call error on
segment 1 moves on to segment 2, while a stream error on segment 1
aborts with segment 2 untouched. -/
theorem c1_narration_failure_witness :
    runSegments envCallErr postA "t" "r" 2 emptyStore 1 ["s1", "s2"] =
        (ExtCall.ttsCall 1 "s1" ::
            (runSegments envCallErr postA "t" "r" 2 emptyStore 2 ["s2"]).1,
          (runSegments envCallErr postA "t" "r" 2 emptyStore 2 ["s2"]).2) ∧
      runSegments envStream postA "t" "r" 2 emptyStore 1 ["s1", "s2"] =
        ([ExtCall.ttsCall 1 "s1"], [], emptyStore, true) :=
  ⟨c1_narration_failure.1 envCallErr postA "t" "r" 2 emptyStore 1 "s1" ["s2"]
      (by decide) rfl,
    c1_narration_failure.2 envStream postA "t" "r" 2 emptyStore 1 "s1" ["s2"]
      (by decide) rfl⟩

/-! ## C2: idempotence of a re-run -/

/-- Counterexample to C2.  Run the pipeline on `postA` with an empty
store, then run it again on the resulting store and cache: the second
run still makes three external calls — the text correction, the
description generation (`generateDescription` has no existence check,
src/index.js:253-285) and the upload (src/index.js:654-667) — so the
skip-if-present policy does not extend to the description or the
publisher. -/
theorem c2_counterexample :
    (processPost envA (processPost envA [] emptyStore postA "r").cache
        (processPost envA [] emptyStore postA "r").store postA "r").calls =
      [ExtCall.correctTextCall "a\n\nb", ExtCall.descriptionCall "a" "b",
        ExtCall.uploadCall (videoFilePath "r" "t" 1)
          "t  #relationshipadvice #shorts #trending #viral"] := by
  decide

/-- C2, amended.  With every per-segment artifact present, a segment's
processing makes no TTS, render, probe or encode call — its only
external call is the upload, which (like the per-post text correction
and description generation, always re-invoked for an admitted post) is
not gated by the cache. -/
theorem c2_rerun_calls :
    (∀ (env : Env) (post : Post) (shortTitle sub : String) (n : Nat)
        (st : Store) (i : Nat) (s : String),
      st.hasFile (audioFilePath sub shortTitle i) = true →
      st.hasFile (screenshotFilePath sub shortTitle i) = true →
      st.hasFile (videoFilePath sub shortTitle i) = true →
      s ≠ "" →
        (processSegment env post shortTitle sub n st i s).1 =
          [ExtCall.uploadCall (videoFilePath sub shortTitle i)
            (segmentUploadTitle shortTitle n i)]) ∧
    (∀ (env : Env) (cache : List (String × String)) (st : Store)
        (post : Post) (sub : String),
      (containsUpdate post.title || containsUpdate post.selftext) = false →
      bodyWordCount post.selftext ≤ 600 →
        ExtCall.descriptionCall post.title post.selftext ∈
          (processPost env cache st post sub).calls) := by
  constructor
  · intro env post shortTitle sub n st i s h1 h2 h3 hs
    simp [processSegment, generateSegmentSpeech, generateScreenshot,
      h1, h2, h3, hs]
  · intro env cache st post sub hb hc
    have hc' : ¬ 600 < bodyWordCount post.selftext := not_lt.mpr hc
    cases hl : cache.lookup post.title with
    | none => simp [processPost, hb, hc', hl]
    | some s =>
      by_cases hs : s = "" <;> simp [processPost, hb, hc', hl, hs]

/-- Witness for C2 (amended) on the fully populated store of `postA`:
the upload is the only call the completed segment makes. -/
theorem c2_rerun_calls_witness :
    (processSegment envA postA "t" "r" 1 storeFullA 1 "ok").1 =
      [ExtCall.uploadCall (videoFilePath "r" "t" 1)
        (segmentUploadTitle "t" 1 1)] :=
  c2_rerun_calls.1 envA postA "t" "r" 1 storeFullA 1 "ok"
    (by decide) (by decide) (by decide) (by decide)

/-! ## C3: published clip durations -/

/-- Counterexample to C3.  `processPost` uploads each composited clip
directly (src/index.js:654-667); `splitVideo` is never called, so no
maximum applies: with a narration probed at 120 s the run publishes a
120 s clip, exceeding the splitter's configured 60 s maximum. -/
theorem c3_counterexample :
    (processPost (envNarr 120) [("a", "t")] emptyStore postA "r").published =
        [(videoFilePath "r" "t" 1, 120)] ∧
      segmentDurationDefault < 120 := by
  exact ⟨rfl, by decide⟩

/-- C3, amended.  A published clip's duration equals its segment's
probed narration duration, whatever that is — the pipeline enforces no
upper or lower bound, because the rendered segment is uploaded directly
and the splitter/rebalancer does not run before upload. -/
theorem c3_published_duration :
    ∀ d : ℚ, processPost (envNarr d) [("a", "t")] emptyStore postA "r" =
      ⟨[ExtCall.correctTextCall "a\n\nb", ExtCall.descriptionCall "a" "b",
          ExtCall.ttsCall 1 "ok", ExtCall.renderCall 1,
          ExtCall.probeAudioCall (audioFilePath "r" "t" 1),
          ExtCall.encodeCall 1,
          ExtCall.uploadCall (videoFilePath "r" "t" 1)
            "t  #relationshipadvice #shorts #trending #viral"],
        [(videoFilePath "r" "t" 1, d)],
        ⟨[videoFilePath "r" "t" 1, screenshotFilePath "r" "t" 1,
            audioFilePath "r" "t" 1, descriptionFilePath "r" "t"],
          [(videoFilePath "r" "t" 1, d)]⟩,
        [("a", "t")], false⟩ := by
  intro d
  rfl

/-! ## C4, C5, C6: the text segmenter

The proofs go through a round-trip property: each returned segment
string, re-tokenized with `split(/\s+/)`, yields back exactly its
token list.  This needs two structural facts about `split(/\s+/)`
output: tokens contain no whitespace, and an empty token can occur only
at the very first or very last position (`SandwichOk`); both survive
restriction to the contiguous sub-lists the segmenter produces. -/

/-- A token free of JavaScript whitespace. -/
def NoWsTok (t : List Char) : Prop := ∀ c ∈ t, isWsChar c = false

def ABLne (ts : List (List Char)) : Prop :=
  ∀ pre mid post, ts = pre ++ mid :: post → post ≠ [] → mid ≠ []

def SandwichOk (ts : List (List Char)) : Prop :=
  ∀ pre mid post, ts = pre ++ mid :: post → pre ≠ [] → post ≠ [] → mid ≠ []

theorem singleton_decomp {x mid : List Char} {pre post : List (List Char)}
    (h : [x] = pre ++ mid :: post) : pre = [] ∧ mid = x ∧ post = [] := by
  cases pre with
  | nil => simp_all
  | cons a pre' =>
    simp only [List.cons_append, List.cons.injEq] at h
    rcases h with ⟨-, h2⟩
    cases pre' <;> simp_all

theorem ablne_singleton (x : List Char) : ABLne [x] := by
  intro pre mid post h hpost
  obtain ⟨-, -, hp⟩ := singleton_decomp h
  exact absurd hp hpost

theorem ablne_cons {x : List Char} {l : List (List Char)}
    (hx : x ≠ []) (hl : ABLne l) : ABLne (x :: l) := by
  intro pre mid post h hpost
  match pre, h with
  | [], h =>
    simp at h
    exact h.1 ▸ hx
  | a :: pre', h =>
    simp at h
    exact hl pre' mid post h.2 hpost

theorem goSplit_ne_nil : ∀ (cs : List Char) (inWs : Bool) (acc : List Char),
    goSplit inWs cs acc ≠ [] := by
  intro cs
  induction cs with
  | nil => intro inWs acc; simp [goSplit]
  | cons c cs ih =>
    intro inWs acc
    by_cases h : isWsChar c
    · cases inWs
      · simp [goSplit, h]
      · simp [goSplit, h]; exact ih _ _
    · simp [goSplit, h]; exact ih _ _

theorem goSplit_noWs : ∀ (cs : List Char) (inWs : Bool) (acc : List Char),
    (∀ c ∈ acc, isWsChar c = false) →
    ∀ t ∈ goSplit inWs cs acc, NoWsTok t := by
  intro cs
  induction cs with
  | nil =>
    intro inWs acc hacc t ht
    simp [goSplit] at ht
    subst ht
    intro c hc
    exact hacc c (List.mem_reverse.mp hc)
  | cons c cs ih =>
    intro inWs acc hacc t ht
    by_cases h : isWsChar c
    · cases inWs
      · simp [goSplit, h] at ht
        rcases ht with ht | ht
        · subst ht; intro d hd; exact hacc d (List.mem_reverse.mp hd)
        · exact ih true [] (by simp) t ht
      · simp [goSplit, h] at ht
        exact ih true acc hacc t ht
    · simp [goSplit, h] at ht
      refine ih false (c :: acc) ?_ t ht
      intro d hd
      rcases List.mem_cons.mp hd with rfl | hd
      · simpa using h
      · exact hacc d hd

theorem goSplit_ablne : ∀ (cs : List Char) (inWs : Bool) (acc : List Char),
    (inWs = false → acc ≠ []) → ABLne (goSplit inWs cs acc) := by
  intro cs
  induction cs with
  | nil => intro inWs acc _; simp [goSplit]; exact ablne_singleton _
  | cons c cs ih =>
    intro inWs acc hacc
    by_cases h : isWsChar c
    · cases inWs
      · have hne : acc ≠ [] := hacc rfl
        simp [goSplit, h]
        exact ablne_cons (by simpa using hne) (ih true [] (by simp))
      · simp [goSplit, h]
        exact ih true acc (by simp)
    · simp [goSplit, h]
      exact ih false (c :: acc) (by simp)

theorem sandwich_of_ablne {ts : List (List Char)} (h : ABLne ts) :
    SandwichOk ts :=
  fun pre mid post heq _ hpost => h pre mid post heq hpost

theorem sandwich_cons {x : List Char} {l : List (List Char)}
    (hl : ABLne l) : SandwichOk (x :: l) := by
  intro pre mid post h hpre hpost
  match pre, h with
  | [], _ => exact absurd rfl hpre
  | a :: pre', h =>
    simp at h
    exact hl pre' mid post h.2 hpost

theorem sandwich_tail {x : List Char} {l : List (List Char)}
    (h : SandwichOk (x :: l)) : SandwichOk l := by
  intro pre mid post heq hpre hpost
  refine h (x :: pre) mid post (by simp [heq]) (by simp) hpost

theorem jsSplit_sandwich (cs : List Char) : SandwichOk (jsSplitWsL cs) := by
  unfold jsSplitWsL
  match cs with
  | [] =>
    intro pre mid post h hpre hpost
    obtain ⟨hpre', -, -⟩ := singleton_decomp h
    exact absurd hpre' hpre
  | c :: cs' =>
    by_cases h : isWsChar c
    · simp only [goSplit, h, if_true]
      exact sandwich_cons (goSplit_ablne cs' true [] (by simp))
    · simp only [goSplit, h, Bool.false_eq_true, if_false]
      exact sandwich_of_ablne (goSplit_ablne cs' false [c] (by simp))

theorem goSplit_noWs_append :
    ∀ (t cs acc : List Char), NoWsTok t →
      goSplit false (t ++ cs) acc = goSplit false cs (t.reverse ++ acc) := by
  intro t
  induction t with
  | nil => intro cs acc _; simp
  | cons c t ih =>
    intro cs acc ht
    have hc : isWsChar c = false := ht c (by simp)
    simp only [List.cons_append, goSplit, hc, Bool.false_eq_true, if_false,
      List.reverse_cons, List.append_assoc, List.singleton_append]
    exact ih cs (c :: acc) fun d hd => ht d (by simp [hd])

theorem splitJoin : ∀ (ts : List (List Char)), ts ≠ [] →
    (∀ t ∈ ts, NoWsTok t) → SandwichOk ts →
    jsSplitWsL (joinTok ts) = ts := by
  intro ts
  induction ts with
  | nil => intro h; exact absurd rfl h
  | cons t ts' ih =>
    intro _ hno hsw
    match ts' with
    | [] =>
      show goSplit false (joinTok [t]) [] = [t]
      have h1 : joinTok [t] = t ++ [] := by simp [joinTok]
      rw [h1, goSplit_noWs_append t [] [] (hno t (by simp))]
      simp [goSplit]
    | t1 :: rest =>
      show goSplit false (joinTok (t :: t1 :: rest)) [] = t :: t1 :: rest
      have hj : joinTok (t :: t1 :: rest) = t ++ ' ' :: joinTok (t1 :: rest) :=
        rfl
      rw [hj, goSplit_noWs_append t _ [] (hno t (by simp))]
      have hws : isWsChar ' ' = true := by decide
      simp only [goSplit, hws, if_true, List.append_nil, List.reverse_reverse]
      have ihx : goSplit false (joinTok (t1 :: rest)) [] = t1 :: rest := by
        refine ih (by simp) ?_ (sandwich_tail hsw)
        intro u hu
        exact hno u (List.mem_cons_of_mem t hu)
      match t1, rest, ihx, hsw with
      | [], rest, ihx, hsw =>
        have hrest : rest = [] := by
          by_contra hr
          exact (hsw [t] [] rest rfl (by simp) hr) rfl
        subst hrest
        simp [joinTok, goSplit]
      | c :: t1', rest, ihx, hsw =>
        have hc : isWsChar c = false :=
          hno (c :: t1') (by simp) c (by simp)
        have hstep : ∃ X : List Char,
            joinTok ((c :: t1') :: rest) = c :: X := by
          match rest with
          | [] => exact ⟨t1', rfl⟩
          | r :: rest' => exact ⟨t1' ++ ' ' :: joinTok (r :: rest'), rfl⟩
        obtain ⟨X, hX⟩ := hstep
        rw [hX]
        rw [hX] at ihx
        exact congrArg (List.cons t)
          (by simpa only [goSplit, hc, Bool.false_eq_true, if_false] using ihx)

theorem segStep_eq (m : Nat) (segs : List (List (List Char)))
    (cur : List (List Char)) (w : List Char) :
    segStep m (segs, cur) w =
      if m ≤ cur.length + 1 ∧ endsWithPunct w = true
      then (segs ++ [cur ++ [w]], []) else (segs, cur ++ [w]) := by
  simp [segStep]

theorem foldl_segStep_flatten (m : Nat) :
    ∀ (ws : List (List Char)) (segs : List (List (List Char)))
      (cur : List (List Char)),
      (ws.foldl (segStep m) (segs, cur)).1.flatten ++
          (ws.foldl (segStep m) (segs, cur)).2 =
        segs.flatten ++ cur ++ ws := by
  intro ws
  induction ws with
  | nil => intro segs cur; simp
  | cons w ws ih =>
    intro segs cur
    simp only [List.foldl_cons, segStep_eq]
    by_cases h : m ≤ cur.length + 1 ∧ endsWithPunct w = true
    · rw [if_pos h, ih]
      simp
    · rw [if_neg h, ih]
      simp

theorem foldl_segStep_min (m : Nat) :
    ∀ (ws : List (List Char)) (segs : List (List (List Char)))
      (cur : List (List Char)),
      (∀ s ∈ segs, m ≤ s.length ∧ s ≠ []) →
      ∀ s ∈ (ws.foldl (segStep m) (segs, cur)).1, m ≤ s.length ∧ s ≠ [] := by
  intro ws
  induction ws with
  | nil => intro segs cur hs; simpa using hs
  | cons w ws ih =>
    intro segs cur hs
    simp only [List.foldl_cons, segStep_eq]
    by_cases h : m ≤ cur.length + 1 ∧ endsWithPunct w = true
    · rw [if_pos h]
      refine ih (segs ++ [cur ++ [w]]) [] ?_
      intro s hsmem
      rcases List.mem_append.mp hsmem with hmem | hmem
      · exact hs s hmem
      · rw [List.mem_singleton.mp hmem]
        exact ⟨by simpa using h.1, by simp⟩
    · rw [if_neg h]
      exact ih segs (cur ++ [w]) hs

theorem mergeIntoLast_flatten :
    ∀ (segs : List (List (List Char))) (rest : List (List Char)),
      (mergeIntoLast segs rest).flatten = segs.flatten ++ rest := by
  intro segs
  induction segs with
  | nil => intro rest; simp [mergeIntoLast]
  | cons s ss ih =>
    intro rest
    match ss with
    | [] => simp [mergeIntoLast]
    | s2 :: ss2 => simp [mergeIntoLast, ih]

theorem mergeIntoLast_eq :
    ∀ (segs : List (List (List Char))) (rest : List (List Char)),
      segs ≠ [] →
      mergeIntoLast segs rest =
        segs.dropLast ++ [(segs.getLast?).getD [] ++ rest] := by
  intro segs
  induction segs with
  | nil => intro rest h; exact absurd rfl h
  | cons s ss ih =>
    intro rest _
    match ss with
    | [] => simp [mergeIntoLast]
    | s2 :: ss2 =>
      have := ih rest (by simp)
      simp only [mergeIntoLast, this]
      simp [List.getLast?_cons_cons]

theorem segFinish_flatten (m : Nat) (segs : List (List (List Char)))
    (cur : List (List Char)) :
    (segFinish m (segs, cur)).flatten = segs.flatten ++ cur := by
  unfold segFinish
  by_cases h1 : cur = []
  · simp [h1]
  · by_cases h2 : segs ≠ [] ∧ cur.length < m
    · simp [h1, h2, mergeIntoLast_flatten]
    · simp [h1, h2]

theorem segmentTokens_flatten (toks : List (List Char)) (m : Nat) :
    (segmentTokens toks m).flatten = toks := by
  unfold segmentTokens segFold
  have h := foldl_segStep_flatten m toks [] []
  simp only [List.flatten_nil, List.nil_append] at h
  rcases hf : toks.foldl (segStep m) ([], []) with ⟨segs, cur⟩
  rw [hf] at h
  simp only at h
  rw [segFinish_flatten m segs cur, h]

theorem segFinish_dropLast_min (m : Nat) (segs : List (List (List Char)))
    (cur : List (List Char)) (hs : ∀ s ∈ segs, m ≤ s.length) :
    ∀ s ∈ (segFinish m (segs, cur)).dropLast, m ≤ s.length := by
  unfold segFinish
  by_cases h1 : cur = []
  · rw [if_pos h1]
    intro s hsm
    exact hs s (List.mem_of_mem_dropLast hsm)
  · rw [if_neg h1]
    by_cases h2 : segs ≠ [] ∧ cur.length < m
    · rw [if_pos h2, mergeIntoLast_eq segs cur h2.1, List.dropLast_concat]
      intro s hsm
      exact hs s (List.mem_of_mem_dropLast hsm)
    · rw [if_neg h2, List.dropLast_concat]
      intro s hsm
      exact hs s hsm

theorem segFinish_ne_nil (m : Nat) (segs : List (List (List Char)))
    (cur : List (List Char)) (hs : ∀ s ∈ segs, s ≠ []) :
    ∀ s ∈ segFinish m (segs, cur), s ≠ [] := by
  unfold segFinish
  by_cases h1 : cur = []
  · rw [if_pos h1]
    exact hs
  · rw [if_neg h1]
    by_cases h2 : segs ≠ [] ∧ cur.length < m
    · rw [if_pos h2, mergeIntoLast_eq segs cur h2.1]
      intro s hsm
      rcases List.mem_append.mp hsm with hm | hm
      · exact hs s (List.mem_of_mem_dropLast hm)
      · rw [List.mem_singleton.mp hm]
        simp [h1]
    · rw [if_neg h2]
      intro s hsm
      rcases List.mem_append.mp hsm with hm | hm
      · exact hs s hm
      · rw [List.mem_singleton.mp hm]; exact h1

theorem segmentTokens_min (toks : List (List Char)) (m : Nat) :
    ∀ s ∈ (segmentTokens toks m).dropLast, m ≤ s.length := by
  unfold segmentTokens segFold
  rcases hf : toks.foldl (segStep m) ([], []) with ⟨segs, cur⟩
  have hmin := foldl_segStep_min m toks [] [] (by simp)
  rw [hf] at hmin
  exact segFinish_dropLast_min m segs cur fun s hs => (hmin s hs).1

theorem segmentTokens_ne_nil (toks : List (List Char)) (m : Nat) :
    ∀ s ∈ segmentTokens toks m, s ≠ [] := by
  unfold segmentTokens segFold
  rcases hf : toks.foldl (segStep m) ([], []) with ⟨segs, cur⟩
  have hmin := foldl_segStep_min m toks [] [] (by simp)
  rw [hf] at hmin
  exact segFinish_ne_nil m segs cur fun s hs => (hmin s hs).2

theorem flatten_decomp :
    ∀ (l : List (List (List Char))), ∀ seg ∈ l,
      ∃ A B, l.flatten = A ++ seg ++ B := by
  intro l
  induction l with
  | nil => intro seg hs; simp at hs
  | cons x l ih =>
    intro seg hs
    rcases List.mem_cons.mp hs with rfl | hs
    · exact ⟨[], l.flatten, by simp⟩
    · obtain ⟨A, B, hAB⟩ := ih seg hs
      exact ⟨x ++ A, B, by simp [hAB]⟩

theorem sandwich_infix {A B s : List (List Char)}
    (h : SandwichOk (A ++ s ++ B)) : SandwichOk s := by
  intro pre mid post heq hpre hpost
  refine h (A ++ pre) mid (post ++ B) ?_ ?_ ?_
  · rw [heq]; simp
  · intro hc
    exact hpre (List.append_eq_nil.mp hc).2
  · intro hc
    exact hpost (List.append_eq_nil.mp hc).1

theorem wordTokens_ne_nil (text : String) : wordTokens text ≠ [] :=
  goSplit_ne_nil text.data false []

theorem wordTokens_noWs (text : String) :
    ∀ t ∈ wordTokens text, NoWsTok t :=
  goSplit_noWs text.data false [] (by simp)

theorem seg_roundtrip (text : String) (m : Nat) :
    ∀ s ∈ segmentTokens (wordTokens text) m, jsSplitWsL (joinTok s) = s := by
  intro s hs
  refine splitJoin s (segmentTokens_ne_nil _ m s hs) ?_ ?_
  · intro t ht
    refine wordTokens_noWs text t ?_
    rw [← segmentTokens_flatten (wordTokens text) m]
    exact List.mem_flatten.mpr ⟨s, hs, ht⟩
  · obtain ⟨A, B, hAB⟩ := flatten_decomp (segmentTokens (wordTokens text) m) s hs
    rw [segmentTokens_flatten (wordTokens text) m] at hAB
    have := jsSplit_sandwich text.data
    rw [show jsSplitWsL text.data = wordTokens text from rfl, hAB] at this
    exact sandwich_infix this

theorem wordCount_mk_joinTok (text : String) (m : Nat) :
    ∀ s ∈ segmentTokens (wordTokens text) m,
      wordCount (String.mk (joinTok s)) = s.length := by
  intro s hs
  show (jsSplitWsL (joinTok s)).length = s.length
  rw [seg_roundtrip text m s hs]

theorem joinTok_append :
    ∀ (xs ys : List (List Char)), xs ≠ [] → ys ≠ [] →
      joinTok (xs ++ ys) = joinTok xs ++ ' ' :: joinTok ys := by
  intro xs
  induction xs with
  | nil => intro ys h; exact absurd rfl h
  | cons x xs ih =>
    intro ys _ hys
    match xs with
    | [] =>
      match ys with
      | y :: ys' => simp [joinTok]
    | x2 :: xs2 =>
      match ys with
      | y :: ys' =>
        have hrec := ih (y :: ys') (by simp) (by simp)
        show x ++ ' ' :: joinTok (x2 :: xs2 ++ y :: ys') =
          (x ++ ' ' :: joinTok (x2 :: xs2)) ++ ' ' :: joinTok (y :: ys')
        rw [hrec]
        simp

theorem joinTok_map_flatten :
    ∀ (blocks : List (List (List Char))), (∀ b ∈ blocks, b ≠ []) →
      joinTok (blocks.map joinTok) = joinTok blocks.flatten := by
  intro blocks
  induction blocks with
  | nil => intro _; rfl
  | cons b bs ih =>
    intro hb
    match bs with
    | [] => simp [joinTok]
    | b2 :: bs2 =>
      have hb1 : b ≠ [] := hb b (by simp)
      have hbs : (b2 :: bs2).flatten ≠ [] := by
        have : b2 ≠ [] := hb b2 (by simp)
        simp only [List.flatten_cons]
        intro hc
        exact this (List.append_eq_nil.mp hc).1
      have hrest := ih fun x hx => hb x (List.mem_cons_of_mem b hx)
      show joinTok b ++ ' ' :: joinTok ((b2 :: bs2).map joinTok) =
        joinTok (b ++ (b2 :: bs2).flatten)
      rw [hrest, joinTok_append b (b2 :: bs2).flatten hb1 hbs]

theorem stringDataAppend (a b : String) : (a ++ b).data = a.data ++ b.data := by
  cases a
  cases b
  rfl

theorem joinSp_data :
    ∀ (l : List (List (List Char))),
      (joinSp (l.map fun t => String.mk (joinTok t))).data =
        joinTok (l.map joinTok) := by
  intro l
  induction l with
  | nil => rfl
  | cons b bs ih =>
    match bs with
    | [] => rfl
    | b2 :: bs2 =>
      show (String.mk (joinTok b) ++ " " ++
          joinSp ((b2 :: bs2).map fun t => String.mk (joinTok t))).data =
        joinTok b ++ ' ' :: joinTok ((b2 :: bs2).map joinTok)
      rw [stringDataAppend, stringDataAppend, ih]
      simp

theorem segmentTokens_ne_nil_list (text : String) (m : Nat) :
    segmentTokens (wordTokens text) m ≠ [] := by
  intro hc
  have := segmentTokens_flatten (wordTokens text) m
  rw [hc] at this
  exact wordTokens_ne_nil text this.symm

/-- The merge step of src/index.js:545 seen on strings: appending
`" " + currentSegment.join(" ")` to the last segment's string is
joining the concatenated token lists. -/
theorem mergeStepAsStrings (lastSeg cur : List (List Char))
    (h1 : lastSeg ≠ []) (h2 : cur ≠ []) :
    String.mk (joinTok (lastSeg ++ cur)) =
      String.mk (joinTok lastSeg) ++ " " ++ String.mk (joinTok cur) := by
  rw [joinTok_append lastSeg cur h1 h2]
  show String.mk _ = String.mk _ ++ String.mk [' '] ++ String.mk _
  rw [show ∀ (l1 l2 : List Char), String.mk l1 ++ String.mk l2 =
      String.mk (l1 ++ l2) from fun l1 l2 => rfl]
  rw [show ∀ (l1 l2 : List Char), String.mk l1 ++ String.mk l2 =
      String.mk (l1 ++ l2) from fun l1 l2 => rfl]
  exact congrArg String.mk (by simp)

theorem foldl_segStep_no_emit (m : Nat) :
    ∀ (ws : List (List Char)) (segs : List (List (List Char)))
      (cur : List (List Char)), cur.length + ws.length < m →
      ws.foldl (segStep m) (segs, cur) = (segs, cur ++ ws) := by
  intro ws
  induction ws with
  | nil => intro segs cur _; simp
  | cons w ws ih =>
    intro segs cur h
    simp only [List.foldl_cons, segStep_eq]
    rw [if_neg (by simp at h ⊢; intro hle; omega)]
    rw [ih segs (cur ++ [w]) (by simp at h ⊢; omega)]
    simp

/-- C4.  For every input text and minimum `m`, the segments returned by
`splitTextIntoSegments` have word counts summing to the word count of
the input, and every segment except possibly the last has at least `m`
words (word count as the script computes it: `split(/\s+/).length`). -/
theorem c4_segmenter (text : String) (m : Nat) :
    ((splitTextIntoSegments text m).map wordCount).sum = wordCount text ∧
      ∀ seg ∈ (splitTextIntoSegments text m).dropLast, m ≤ wordCount seg := by
  constructor
  · unfold splitTextIntoSegments
    rw [List.map_map]
    have hcongr : List.map (wordCount ∘ fun t => String.mk (joinTok t))
        (segmentTokens (wordTokens text) m) =
        List.map List.length (segmentTokens (wordTokens text) m) :=
      List.map_congr_left fun s hs => wordCount_mk_joinTok text m s hs
    rw [hcongr, ← List.length_flatten, segmentTokens_flatten]
    rfl
  · intro seg hseg
    unfold splitTextIntoSegments at hseg
    rw [← List.map_dropLast] at hseg
    obtain ⟨s, hs, rfl⟩ := List.mem_map.mp hseg
    rw [wordCount_mk_joinTok text m s
      (List.mem_of_mem_dropLast hs)]
    exact segmentTokens_min (wordTokens text) m s hs

/-- Witness for C4 at the spec's concrete example
`segment("a b c. d e f g h i.", 3)`. -/
theorem c4_segmenter_witness :
    ((splitTextIntoSegments "a b c. d e f g h i." 3).map wordCount).sum =
        wordCount "a b c. d e f g h i." ∧
      3 ≤ wordCount "a b c." :=
  ⟨(c4_segmenter "a b c. d e f g h i." 3).1,
    (c4_segmenter "a b c. d e f g h i." 3).2 "a b c." (by decide)⟩

/-- C5.  For nonempty input, joining the returned segments with single
spaces reproduces the input up to whitespace normalization (it has the
same `split(/\s+/)` token sequence), and at least one segment is
returned. -/
theorem c5_join_segments (text : String) (m : Nat) (_htext : text ≠ "") :
    wordTokens (joinSp (splitTextIntoSegments text m)) = wordTokens text ∧
      splitTextIntoSegments text m ≠ [] := by
  constructor
  · show jsSplitWsL (joinSp (splitTextIntoSegments text m)).data =
      wordTokens text
    unfold splitTextIntoSegments
    rw [joinSp_data, joinTok_map_flatten _ (segmentTokens_ne_nil _ m),
      segmentTokens_flatten]
    exact splitJoin (wordTokens text) (wordTokens_ne_nil text)
      (wordTokens_noWs text) (jsSplit_sandwich text.data)
  · unfold splitTextIntoSegments
    simp only [ne_eq, List.map_eq_nil_iff]
    exact segmentTokens_ne_nil_list text m

/-- Witness for C5 at `segment("a b c. d", 3)`. -/
theorem c5_join_segments_witness :
    wordTokens (joinSp (splitTextIntoSegments "a b c. d" 3)) =
        wordTokens "a b c. d" ∧
      splitTextIntoSegments "a b c. d" 3 ≠ [] :=
  c5_join_segments "a b c. d" 3 (by decide)

/-- C6.  The epilogue of the segmenter: after the token loop, a
nonempty remaining buffer shorter than `m` with at least one emitted
segment is appended onto the last emitted segment; otherwise a nonempty
buffer becomes its own final segment; and an input whose word count
never reaches `m` yields exactly one segment holding the whole
(whitespace-normalized) text. -/
theorem c6_epilogue (text : String) (m : Nat) :
    ((segFold m (wordTokens text)).2 ≠ [] →
      (segFold m (wordTokens text)).1 ≠ [] →
      (segFold m (wordTokens text)).2.length < m →
      segmentTokens (wordTokens text) m =
        (segFold m (wordTokens text)).1.dropLast ++
          [((segFold m (wordTokens text)).1.getLast?).getD [] ++
            (segFold m (wordTokens text)).2]) ∧
    ((segFold m (wordTokens text)).2 ≠ [] →
      ((segFold m (wordTokens text)).1 = [] ∨
        m ≤ (segFold m (wordTokens text)).2.length) →
      segmentTokens (wordTokens text) m =
        (segFold m (wordTokens text)).1 ++ [(segFold m (wordTokens text)).2]) ∧
    (wordCount text < m →
      splitTextIntoSegments text m =
        [String.mk (joinTok (wordTokens text))]) := by
  refine ⟨?_, ?_, ?_⟩
  · intro h1 h2 h3
    unfold segmentTokens segFinish
    rw [if_neg h1, if_pos ⟨h2, h3⟩, mergeIntoLast_eq _ _ h2]
  · intro h1 h2
    unfold segmentTokens segFinish
    rw [if_neg h1, if_neg (by
      intro hc
      rcases h2 with h2 | h2
      · exact hc.1 h2
      · omega)]
  · intro h
    have hfold : segFold m (wordTokens text) = ([], wordTokens text) := by
      unfold segFold
      rw [foldl_segStep_no_emit m (wordTokens text) [] [] (by simpa using h)]
      simp
    unfold splitTextIntoSegments segmentTokens
    rw [hfold]
    unfold segFinish
    rw [if_neg (by simpa using wordTokens_ne_nil text)]
    rw [if_neg (by simp)]
    simp

/-- Witness for C6: the merge case at `segment("a b c. d", 3)` (a
1-token remainder merges into the emitted segment) and the short-input
case at `segment("a b", 5)`. -/
theorem c6_epilogue_witness :
    segmentTokens (wordTokens "a b c. d") 3 =
        (segFold 3 (wordTokens "a b c. d")).1.dropLast ++
          [((segFold 3 (wordTokens "a b c. d")).1.getLast?).getD [] ++
            (segFold 3 (wordTokens "a b c. d")).2] ∧
      splitTextIntoSegments "a b" 5 = [String.mk (joinTok (wordTokens "a b"))] :=
  ⟨(c6_epilogue "a b c. d" 3).1 (by decide) (by decide) (by decide),
    (c6_epilogue "a b" 5).2.2 (by decide)⟩
